import Mathlib

/-!
Verification of the figma-to-prompt extraction core.

The development shallowly embeds the source of the plugin: JavaScript
strings become Lean String values (lists of characters), the scene-graph
nodes become an inductive type whose optional capability fields are
Option values (none models a property the node does not expose), and the
asynchronous main-component resolution is modelled by the resolution
result itself, an Option Node (none models a lookup that returns
nothing). Numeric node attributes are modelled as integers, which covers
every value the checked properties mention. Where the two staged
revisions of the source disagree, the revision with the instance
resolution logic in the structure renderer (the unnamed source file) is
embedded, since the checked properties concern exactly that logic; the
divergences of the other revision are noted in the results.
-/

set_option maxRecDepth 200000

set_option linter.unusedVariables false

/-- The repeat method of JavaScript strings: n copies of s. -/
def jsRepeat (s : String) (n : Nat) : String :=
  match n with
  | 0 => ""
  | k + 1 => s ++ jsRepeat s k

/-- The join method of JavaScript arrays of strings. -/
def jsJoin (sep : String) : List String → String
  | [] => ""
  | [x] => x
  | x :: y :: rest => x ++ sep ++ jsJoin sep (y :: rest)

/-- Does the second list start with the first one? -/
def listStartsWith : List Char → List Char → Bool
  | [], _ => true
  | _ :: _, [] => false
  | p :: ps, c :: cs => p == c && listStartsWith ps cs

/-- The includes method of JavaScript strings, on character lists:
does the needle occur anywhere in the haystack? -/
def containsList (needle : List Char) : List Char → Bool
  | [] => listStartsWith needle []
  | c :: t => listStartsWith needle (c :: t) || containsList needle t

/-- hay.includes(needle) of JavaScript. -/
def containsStr (hay needle : String) : Bool :=
  containsList needle.data hay.data

/-- The whitespace class of JavaScript regular expressions and of the
trim method: space, tab, line terminators and the Unicode space
separators. -/
def isJsSpace (c : Char) : Bool :=
  let n := c.toNat
  n == 32 || n == 9 || n == 10 || n == 11 || n == 12 || n == 13 ||
  n == 0xa0 || n == 0x1680 ||
  n == 0x2000 || n == 0x2001 || n == 0x2002 || n == 0x2003 ||
  n == 0x2004 || n == 0x2005 || n == 0x2006 || n == 0x2007 ||
  n == 0x2008 || n == 0x2009 || n == 0x200a ||
  n == 0x2028 || n == 0x2029 || n == 0x202f || n == 0x205f ||
  n == 0x3000 || n == 0xfeff

/-- Drop leading JavaScript whitespace. -/
def dropLeadingSpace : List Char → List Char
  | [] => []
  | c :: t => if isJsSpace c then dropLeadingSpace t else c :: t

/-- The trim method of JavaScript strings. -/
def trimJs (s : String) : String :=
  String.mk (dropLeadingSpace (dropLeadingSpace s.data.reverse).reverse)

/-- Split a string at every newline character, as the renderer output is
read back line by line; "a\nb" gives ["a", "b"] and "" gives [""]. -/
def splitLinesCore : List Char → List (List Char)
  | [] => [[]]
  | c :: t =>
    match splitLinesCore t with
    | [] => [[]]
    | l :: ls => if c = '\n' then [] :: l :: ls else (c :: l) :: ls

/-- The lines of a rendered string. -/
def linesOf (s : String) : List String :=
  (splitLinesCore s.data).map String.mk

/-- One hexadecimal digit, for JSON control-character escapes. -/
def hexDigit (n : Nat) : Char :=
  if n < 10 then Char.ofNat (48 + n) else Char.ofNat (87 + (n - 10))

/-- Four hexadecimal digits, for JSON control-character escapes. -/
def hex4 (n : Nat) : String :=
  String.mk [hexDigit (n / 4096 % 16), hexDigit (n / 256 % 16),
    hexDigit (n / 16 % 16), hexDigit (n % 16)]

/-- How JSON.stringify escapes one character inside a string literal. -/
def jsonEscapeChar (c : Char) : String :=
  if c = '"' then "\\\"" else
  if c = '\\' then "\\\\" else
  if c = '\n' then "\\n" else
  if c = '\r' then "\\r" else
  if c = '\t' then "\\t" else
  if c = Char.ofNat 8 then "\\b" else
  if c = Char.ofNat 12 then "\\f" else
  if c.toNat < 32 then "\\u" ++ hex4 c.toNat else String.mk [c]

/-- JSON.stringify escaping of a whole string body. -/
def jsonEscape (s : String) : String :=
  String.join (s.data.map jsonEscapeChar)

/-- JSON.stringify of a string value, quotes included. -/
def jsonStr (s : String) : String :=
  "\"" ++ jsonEscape s ++ "\""

/-- A paint descriptor of the scene graph, modelled by what
JSON.stringify does to it: some text when it serializes, none when
serialization throws. -/
structure Paint where
  json : Option String
deriving DecidableEq

/-- The font name attribute: a family and style pair. -/
structure FontName where
  family : String
  style : String
deriving DecidableEq

/-- JSON.stringify of a font name object. -/
def stringifyFontName (f : FontName) : String :=
  "\x7b\"family\":" ++ jsonStr f.family ++ ",\"style\":" ++ jsonStr f.style ++ "\x7d"

/-- The layout constraints attribute of a node. -/
structure NodeConstraints where
  horizontal : String
  vertical : String
deriving DecidableEq

/-- JSON.stringify of a constraints object. -/
def stringifyConstraints (c : NodeConstraints) : String :=
  "\x7b\"horizontal\":" ++ jsonStr c.horizontal ++ ",\"vertical\":" ++ jsonStr c.vertical ++ "\x7d"

/-- A JavaScript value that is either a string or a number, as the
fontSize field of the style record holds one or the other. -/
inductive JsVal where
  | str (s : String)
  | num (n : Int)
deriving DecidableEq

/-- JSON.stringify of such a value. -/
def stringifyJsVal : JsVal → String
  | JsVal.str s => jsonStr s
  | JsVal.num n => toString n

/-- The style record the Style Probe produces (StyleInfo of the source),
fields in the insertion order of the source object literal. -/
structure StyleInfo where
  fills : String
  strokes : String
  autoLayout : String
  paddings : String
  position : String
  size : String
  fontFamily : String
  fontSize : JsVal
deriving DecidableEq

/-- JSON.stringify of a style record, keys in insertion order. -/
def stringifyStyleInfo (st : StyleInfo) : String :=
  "\x7b\"fills\":" ++ jsonStr st.fills ++
  ",\"strokes\":" ++ jsonStr st.strokes ++
  ",\"autoLayout\":" ++ jsonStr st.autoLayout ++
  ",\"paddings\":" ++ jsonStr st.paddings ++
  ",\"position\":" ++ jsonStr st.position ++
  ",\"size\":" ++ jsonStr st.size ++
  ",\"fontFamily\":" ++ jsonStr st.fontFamily ++
  ",\"fontSize\":" ++ stringifyJsVal st.fontSize ++ "\x7d"

/-- The capability-gated plain attributes of a scene-graph node. A field
holding none models a node that does not expose that property. -/
structure NodeInfo where
  type : String
  name : String
  x : Int
  y : Int
  width : Int
  height : Int
  description : Option String
  fills : Option (List Paint)
  strokes : Option (List Paint)
  layoutMode : Option String
  paddingTop : Option Int
  paddingRight : Option Int
  paddingBottom : Option Int
  paddingLeft : Option Int
  fontName : Option FontName
  fontSize : Option Int
  constraints : Option NodeConstraints
  characters : Option String

/-- A scene-graph node: its plain attributes, its children when it
exposes the children capability, and for instance nodes the result of
resolving the main component (none models a lookup that fails). -/
inductive Node where
  | mk (info : NodeInfo) (children : Option (List Node)) (mainComponent : Option Node)

def Node.info : Node → NodeInfo
  | Node.mk i _ _ => i

def Node.children : Node → Option (List Node)
  | Node.mk _ c _ => c

def Node.mainComponent : Node → Option Node
  | Node.mk _ _ m => m

def Node.type (n : Node) : String := n.info.type

def Node.name (n : Node) : String := n.info.name

def Node.description (n : Node) : Option String := n.info.description

def Node.characters (n : Node) : Option String := n.info.characters

/-- extractDescription of the source: an instance node answers with the
description of its resolved main component, any other node with its own
description; a failed resolution, an absent description or an empty one
(falsy in the source) degrades to a sentinel. -/
def extractDescription (n : Node) : String :=
  if n.type == "INSTANCE" then
    match n.mainComponent with
    | some mc =>
      match mc.description with
      | some d => if d == "" then "No description provided" else d
      | none => "No description provided"
    | none => "No description provided"
  else
    match n.description with
    | some d => if d == "" then "No description provided in the selected component." else d
    | none => "No description provided in the selected component."

/-- Greedy run of non-whitespace characters at the front of a list:
the characters taken and the rest. -/
def takeNonSpace : List Char → List Char × List Char
  | [] => ([], [])
  | c :: rest =>
    if isJsSpace c then ([], c :: rest)
    else
      let p := takeNonSpace rest
      (c :: p.1, p.2)

/-- The remainder takeNonSpace leaves is never longer than its input. -/
def takeNonSpace_rest_le : ∀ cs : List Char, (takeNonSpace cs).2.length ≤ cs.length := by
  intro cs
  induction cs with
  | nil => simp [takeNonSpace]
  | cons c t ih =>
    simp only [takeNonSpace]
    split
    · simp
    · simpa using Nat.le_succ_of_le ih

/-- A prefix that matches is never longer than the matched list. -/
def listStartsWith_length : ∀ p s : List Char, listStartsWith p s = true → p.length ≤ s.length := by
  intro p
  induction p with
  | nil => intro s _; simp
  | cons a ps ih =>
    intro s h
    match s with
    | [] => simp [listStartsWith] at h
    | c :: cs =>
      simp only [listStartsWith, Bool.and_eq_true] at h
      simpa using Nat.succ_le_succ (ih cs h.2)

/-- One attempt of a literal prefix followed by a greedy non-empty run
of non-whitespace, anchored at the front of cs: the matched characters
and the rest, or none when this does not match here. -/
def tryMatch (pat cs : List Char) : Option (List Char × List Char) :=
  if listStartsWith pat cs then
    if (takeNonSpace (cs.drop pat.length)).1.isEmpty then none
    else some (pat ++ (takeNonSpace (cs.drop pat.length)).1, (takeNonSpace (cs.drop pat.length)).2)
  else none

/-- A successful tryMatch with a non-empty pattern consumes at least one
character of its input. -/
def tryMatch_rest_lt : ∀ pat cs m r, 1 ≤ pat.length →
    tryMatch pat cs = some (m, r) → r.length < cs.length := by
  intro pat cs m r hp h
  unfold tryMatch at h
  split at h
  · split at h
    · exact absurd h (by simp)
    · have hr : r = (takeNonSpace (cs.drop pat.length)).2 := by
        injection h with hpair
        exact (congrArg Prod.snd hpair).symm
      have h1 : (takeNonSpace (cs.drop pat.length)).2.length ≤ (cs.drop pat.length).length :=
        takeNonSpace_rest_le _
      have h2 : pat.length ≤ cs.length := by
        apply listStartsWith_length
        assumption
      have h3 : (cs.drop pat.length).length = cs.length - pat.length := by simp
      rw [hr]
      omega
  · exact absurd h (by simp)

/-- The URL pattern of the source, https?://[^\s]+, anchored at the
front of the list. The optional s is greedy, and the two concrete
prefixes can never both match at one position, so trying the longer one
first is exactly the behaviour of the regular expression. -/
def matchUrlAt (cs : List Char) : Option (List Char × List Char) :=
  match tryMatch ("https://".data) cs with
  | some r => some r
  | none => tryMatch ("http://".data) cs

/-- A successful URL match consumes at least one character. -/
def matchUrlAt_rest_lt : ∀ cs m r, matchUrlAt cs = some (m, r) → r.length < cs.length := by
  intro cs m r h
  unfold matchUrlAt at h
  split at h
  next x heq =>
    cases h
    exact tryMatch_rest_lt _ _ _ _ (by decide) heq
  next => exact tryMatch_rest_lt _ _ _ _ (by decide) h

/-- The global scan of the source regular expression over a string: the
list of matches in order of first occurrence. A match is tried at each
position; on a match the scan continues right after it, otherwise it
advances one character, exactly the non-overlapping left-to-right
semantics of match with the g flag. -/
def scanLinksF : Nat → List Char → List (List Char)
  | 0, _ => []
  | f + 1, cs =>
    match matchUrlAt cs with
    | some mr => mr.1 :: scanLinksF f mr.2
    | none =>
      match cs with
      | [] => []
      | _ :: t => scanLinksF f t

/-- The global scan of the source regular expression over a string: the
list of matches in order of first occurrence. A match is tried at each
position; on a match the scan continues right after it, otherwise it
advances one character, exactly the non-overlapping left-to-right
semantics of match with the g flag. Every step consumes at least one
character, so the length of the input bounds the number of steps; the
fuel of scanLinksF only realises that bound and never runs out, as the
fuel-irrelevance lemma below proves. -/
def scanLinks (cs : List Char) : List (List Char) :=
  scanLinksF cs.length cs

/-- extractLinks of the source: all URL matches joined with a comma and
a space, or the sentinel when the match comes back null. -/
def extractLinks (description : String) : String :=
  let links := scanLinks description.data
  if links.isEmpty then "No links found" else jsJoin (", ") (links.map String.mk)

/-- JSON.stringify applied to each paint of an array in order, as
processPaints of the source does; the first paint whose serialization
throws aborts the array with the exception. -/
def serializePaints : List Paint → Except Unit (List String)
  | [] => Except.ok []
  | p :: rest =>
    match p.json with
    | none => Except.error ()
    | some s =>
      match serializePaints rest with
      | Except.ok ss => Except.ok (s :: ss)
      | Except.error e => Except.error e

/-- The style record the probe starts from: every capability-gated field
holds its documented sentinel and position and size hold the coordinates
of the node, exactly the object literal of the source. -/
def defaultStyleInfo (n : Node) : StyleInfo :=
  { fills := "No fill styles"
  , strokes := "No stroke styles"
  , autoLayout := "Not auto layout"
  , paddings := "No padding info"
  , position := "x: " ++ toString n.info.x ++ ", y: " ++ toString n.info.y
  , size := "width: " ++ toString n.info.width ++ ", height: " ++ toString n.info.height
  , fontFamily := "No font family"
  , fontSize := JsVal.str "No font size" }

/-- extractStyleInfo of the source: start from the default record, then
probe each capability in source order and overwrite its field, replacing
a failed paint serialization with a could-not-parse sentinel for that
field alone. -/
def extractStyleInfo (n : Node) : StyleInfo :=
  let i := n.info
  let s0 := defaultStyleInfo n
  let s1 :=
    match i.fills with
    | some ps =>
      { s0 with fills :=
          match serializePaints ps with
          | Except.ok ss => jsJoin (", ") ss
          | Except.error _ => "Could not parse fills" }
    | none => s0
  let s2 :=
    match i.strokes with
    | some ps =>
      { s1 with strokes :=
          match serializePaints ps with
          | Except.ok ss => jsJoin (", ") ss
          | Except.error _ => "Could not parse strokes" }
    | none => s1
  let s3 :=
    match i.fontName with
    | some fn => { s2 with fontFamily := stringifyFontName fn }
    | none => s2
  let s4 :=
    match i.layoutMode with
    | some m => { s3 with autoLayout := if m == "NONE" then "No auto layout" else m }
    | none => s3
  let s5 :=
    match i.paddingLeft, i.paddingRight, i.paddingTop, i.paddingBottom with
    | some pl, some pr, some pt, some pb =>
      { s4 with paddings :=
          "Top: " ++ toString pt ++ "px, Right: " ++ toString pr ++
          "px, Bottom: " ++ toString pb ++ "px, Left: " ++ toString pl ++ "px" }
    | _, _, _, _ => s4
  match i.fontSize with
  | some k => { s5 with fontSize := JsVal.num k }
  | none => s5

mutual

/-- getRecursiveStructure of the source: the per-node lines in push
order, then the rendering of the selected children, joined with
newlines; indentation is the two-space string repeated depth times. An
instance node first resolves its main component: with a resolution it
emits a component reference line and renders its own children when they
are present and non-empty, otherwise the children of the main
component; without a resolution it renders no children at all. Any
other node renders its own children when present and non-empty. -/
def getRecursiveStructure : Node → Nat → String
  | Node.mk info cs mc, depth =>
    jsJoin ("\n")
      ([ jsRepeat ("  ") depth ++ "- " ++ info.type ++
           (if info.name == "" then "" else " (" ++ info.name ++ ")")
       , jsRepeat ("  ") depth ++ "- Position: " ++ toString info.x ++ ", " ++ toString info.y ] ++
       (match info.description with
        | some d => if d == "" then [] else [jsRepeat ("  ") depth ++ "- Description: " ++ d]
        | none => []) ++
       [ jsRepeat ("  ") depth ++ "- Node Type Specific Info: " ++ info.type
       , jsRepeat ("  ") depth ++ "- Node Styles: " ++
           stringifyStyleInfo (extractStyleInfo (Node.mk info cs mc)) ] ++
       (match info.constraints with
        | some c => [jsRepeat ("  ") depth ++ "- Constraints: " ++ stringifyConstraints c]
        | none => []) ++
       (if info.type == "INSTANCE" then
          match mc with
          | some (Node.mk mi mcs mmc) =>
            (jsRepeat ("  ") depth ++ "- Component Reference: " ++ mi.name) ::
            (match cs with
             | some cl =>
               if cl.isEmpty then
                 match mcs with
                 | some ml => if ml.isEmpty then [] else renderNodeList ml (depth + 1)
                 | none => []
               else renderNodeList cl (depth + 1)
             | none =>
               match mcs with
               | some ml => if ml.isEmpty then [] else renderNodeList ml (depth + 1)
               | none => [])
          | none => []
        else
          match cs with
          | some cl => if cl.isEmpty then [] else renderNodeList cl (depth + 1)
          | none => []))

/-- The children loop of getRecursiveStructure: each child rendered one
level deeper, one multi-line string per child. -/
def renderNodeList : List Node → Nat → List String
  | [], _ => []
  | c :: rest, depth => getRecursiveStructure c depth :: renderNodeList rest depth

end

/-- extractStructureInfo of the source: the selected node itself is
never rendered; each child is rendered starting at depth 1 and the
results are joined, or the sentinel is returned when the children
capability is absent or the sequence is empty. -/
def extractStructureInfo (n : Node) : String :=
  match n.children with
  | some cl =>
    if cl.isEmpty then "No child structure found."
    else jsJoin ("\n") (cl.map (fun c => getRecursiveStructure c 1))
  | none => "No child structure found."

/-- The marker token of the project description convention. -/
def marker : List Char := "DESCRIPTION:".data

/-- description.split("DESCRIPTION:") of JavaScript: the fragments
between the non-overlapping left-to-right occurrences of the marker. -/
def splitMarkerF : Nat → List Char → List (List Char)
  | 0, _ => [[]]
  | f + 1, s =>
    if listStartsWith marker s then
      [] :: splitMarkerF f (s.drop marker.length)
    else
      match s with
      | [] => [[]]
      | c :: t =>
        match splitMarkerF f t with
        | [] => [[]]
        | l :: ls => (c :: l) :: ls

/-- description.split("DESCRIPTION:") of JavaScript: the fragments
between the non-overlapping left-to-right occurrences of the marker.
Each step either consumes the marker or one character, so the length of
the input bounds the number of steps; the fuel of splitMarkerF only
realises that bound and never runs out, as the fuel-irrelevance lemma
below proves. -/
def splitMarker (s : List Char) : List (List Char) :=
  splitMarkerF s.length s

/-- Is a node the text node the project description search looks for:
text kind, with character content containing the marker? -/
def isMarkerText (n : Node) : Bool :=
  n.type == "TEXT" &&
    (match n.characters with
     | some ch => containsList marker ch.data
     | none => false)

mutual

/-- findOne of the host tree API, specialised to the predicate of the
source: the first descendant, in depth-first document order, that is a
text node whose characters contain the marker. The node itself is not a
candidate, only its descendants are. -/
def findMarkerText : Node → Option Node
  | Node.mk _ none _ => none
  | Node.mk _ (some cs) _ => findMarkerTextList cs

/-- The traversal loop of findOne over a sibling list: each node is
checked before its own subtree, siblings left to right. -/
def findMarkerTextList : List Node → Option Node
  | [] => none
  | c :: rest =>
    if isMarkerText c then some c
    else
      match findMarkerText c with
      | some r => some r
      | none => findMarkerTextList rest

end

/-- The fixed fallback project description of the source. -/
def DEFAULT_DESCRIPTION : String :=
  "This is figma design for real-world medium alternative Conduit app (also known as the mother of all apps)."

/-- getProjectDescription of the source, with the page selection made
explicit: the container is the parent of the selected node when there is
one, else the node itself. If the container description contains the
marker, the second split fragment is trimmed and returned; otherwise the
first marker-bearing descendant text node is searched and the same
split-and-trim applies to its characters; otherwise the fixed default. -/
def getProjectDescription (selected : Node) (parent : Option Node) : String :=
  let container := match parent with | some p => p | none => selected
  let phase1 : Option String :=
    match container.description with
    | some d =>
      if containsList marker d.data then
        match splitMarker d.data with
        | _ :: p1 :: _ => some (trimJs (String.mk p1))
        | _ => none
      else none
    | none => none
  match phase1 with
  | some r => r
  | none =>
    match findMarkerText container with
    | some tn =>
      match tn.characters with
      | some ch =>
        (match splitMarker ch.data with
         | _ :: p1 :: _ => trimJs (String.mk p1)
         | _ => DEFAULT_DESCRIPTION)
      | none => DEFAULT_DESCRIPTION
    | none => DEFAULT_DESCRIPTION

/-- The fixed guideline text blob of the source, braces written with
character escapes. -/
def COMPONENT_GUIDELINES : String :=
  "\n- We use TypeScript\n- We only create view layer, no business logic or state management\n- We use Tailwind CSS for styling\n- We use React for the view layer\n- We use the Figma file as a reference for the component design\n- We pass props to the component to customize the design as well as handlers\n- We pass children component props to children components (our props essentially parallel the component hierarchy)\n\nExample: \n\ntype TButtonProps = \x7b\n  textProps: TTextProps;\n  onClick: () => void;\n\x7d\n\nconst Button: React.FC<TButtonProps> = (\x7b textProps, onClick \x7d) => \x7b\n  return <button onClick=\x7bonClick\x7d><Text \x7b...textProps\x7d /></button>\n\x7d\n\ntype TTextProps = \x7b\n  text: string;\n  color: string;\n\x7d\n\nconst Text: React.FC<TTextProps> = (\x7b text, color \x7d) => \x7b\n  return <p className=\x7btwMerge(\"text-sm\", color)\x7d>\x7btext\x7d</p>\n\x7d\n"

/-- The extraction result for the selected node (DesignMetadata of the
source); the structure field is renamed since structure is a reserved
word here. -/
structure DesignMetadata where
  description : String
  links : String
  styles : StyleInfo
  structureInfo : String

/-- generatePrompt of the source: pure template interpolation of the
project description, the guidelines and the extracted metadata. -/
def generatePrompt (metadata : DesignMetadata) (selected : Node) (selParent : Option Node) : String :=
  "\nProject Description: " ++ getProjectDescription selected selParent ++
  "\n\nGeneral Guideline for creating a React component: " ++ COMPONENT_GUIDELINES ++
  "\n\nDescription: " ++ metadata.description ++
  "\n\nLinks: " ++ metadata.links ++
  "\n\nNote: The links provided may reference pre-existing components. Please adjust the generated component accordingly.\n\nStyles: " ++
  stringifyStyleInfo metadata.styles ++
  "\n\nStructure (child components):\n" ++ metadata.structureInfo ++
  "\n\nPlease use appropriate HTML and CSS to mimic the layout and design.\n\nCreate a React component that replicates the Figma design mentioned above.\nAlso create an example of how to use the component in a React application (as a propless component).\n"

/-- The observable host-bridge actions of a run, in order. The hidden
clipboard UI itself is host plumbing outside the extraction core; only
the fact that it is shown and messaged is recorded. -/
inductive Effect where
  | notify (msg : String)
  | closePlugin
  | consoleLog (text : String)
  | showUI
  | postMessageCopy (text : String)
deriving DecidableEq

/-- Is an effect a user notification? -/
def Effect.isNotify : Effect → Bool
  | Effect.notify _ => true
  | _ => false

/-- main of the source as a function of the current selection and of the
parent of the selected node: the ordered host-bridge effects it performs
before any clipboard reply arrives, and the assembled prompt when one is
assembled. An empty selection notifies once, closes and does nothing
else; otherwise the metadata is extracted from the first selected node,
the prompt is generated, logged and posted for copying. -/
def mainRun (selection : List Node) (selParent : Option Node) : List Effect × Option String :=
  match selection with
  | [] => ([Effect.notify "Please select a component before running the plugin.", Effect.closePlugin], none)
  | selected :: _ =>
    let description := extractDescription selected
    let metadata : DesignMetadata :=
      { description := description
      , links := extractLinks description
      , styles := extractStyleInfo selected
      , structureInfo := extractStructureInfo selected }
    let prompt := generatePrompt metadata selected selParent
    ( [ Effect.notify "LLM prompt generated! Check the console for details."
      , Effect.consoleLog prompt
      , Effect.showUI
      , Effect.postMessageCopy prompt ]
    , some prompt)

/-- The lines getRecursiveStructure emits for the node itself in the
order the specification enumerates them: type and name, position,
description when present and non-empty, the type tag again, the inline
serialized style record, and constraints when present. -/
def specOwnLines (n : Node) (depth : Nat) : List String :=
  [ jsRepeat ("  ") depth ++ "- " ++ n.type ++
      (if n.name == "" then "" else " (" ++ n.name ++ ")")
  , jsRepeat ("  ") depth ++ "- Position: " ++ toString n.info.x ++ ", " ++ toString n.info.y ] ++
  (match n.description with
   | some d => if d == "" then [] else [jsRepeat ("  ") depth ++ "- Description: " ++ d]
   | none => []) ++
  [ jsRepeat ("  ") depth ++ "- Node Type Specific Info: " ++ n.type
  , jsRepeat ("  ") depth ++ "- Node Styles: " ++ stringifyStyleInfo (extractStyleInfo n) ] ++
  (match n.info.constraints with
   | some c => [jsRepeat ("  ") depth ++ "- Constraints: " ++ stringifyConstraints c]
   | none => [])

/-- The component reference line the renderer emits beyond the
enumeration of the specification: present exactly for an instance node
whose main component resolves. -/
def componentRefLines (n : Node) (depth : Nat) : List String :=
  if n.type == "INSTANCE" then
    match n.mainComponent with
    | some m => [jsRepeat ("  ") depth ++ "- Component Reference: " ++ m.name]
    | none => []
  else []

/-- The children the renderer recurses into, read off the branch logic
of the source: an instance whose main component resolves prefers its own
present non-empty children and falls back to those of the main
component; an instance whose resolution fails recurses into nothing; any
other node uses its own present non-empty children. -/
def nodeStructChildren (n : Node) : List Node :=
  if n.type == "INSTANCE" then
    match n.mainComponent with
    | some m =>
      match n.children with
      | some cl =>
        if cl.isEmpty then
          match m.children with
          | some ml => if ml.isEmpty then [] else ml
          | none => []
        else cl
      | none =>
        match m.children with
        | some ml => if ml.isEmpty then [] else ml
        | none => []
    | none => []
  else
    match n.children with
    | some cl => if cl.isEmpty then [] else cl
    | none => []

/-- Does a character list match the URL pattern in full: one of the two
scheme prefixes followed by a non-empty run of non-whitespace? -/
def isUrlToken (m : List Char) : Bool :=
  (listStartsWith ("https://".data) m && !(m.drop 8).isEmpty &&
     (m.drop 8).all (fun c => !isJsSpace c)) ||
  (listStartsWith ("http://".data) m && !(m.drop 7).isEmpty &&
     (m.drop 7).all (fun c => !isJsSpace c))

/-- The suffix of a character list after the first occurrence of the
marker, or none when the marker does not occur; this renders the phrase
the-text-after-the-marker of the specification. -/
def afterFirstMarker : List Char → Option (List Char)
  | [] => none
  | c :: t =>
    if listStartsWith marker (c :: t) then some ((c :: t).drop marker.length)
    else afterFirstMarker t

/-- The prefix of a character list up to the first occurrence of the
marker, the whole list when the marker does not occur. -/
def upToMarker : List Char → List Char
  | [] => []
  | c :: t =>
    if listStartsWith marker (c :: t) then []
    else c :: upToMarker t

/-- The text after the first marker of the specification, on strings. -/
def textAfterMarker (s : String) : Option String :=
  (afterFirstMarker s.data).map String.mk

/-- The fragment between the first marker and the next occurrence of the
marker or the end, on strings: what the split of the source actually
returns as its second element. -/
def segmentAfterMarker (s : String) : Option String :=
  ((afterFirstMarker s.data).map upToMarker).map String.mk

/-- A node with no optional capability at all; the concrete inputs of
the theorems below are built from it. -/
def baseInfo : NodeInfo :=
  { type := "FRAME", name := "", x := 0, y := 0, width := 0, height := 0
  , description := none, fills := none, strokes := none, layoutMode := none
  , paddingTop := none, paddingRight := none, paddingBottom := none, paddingLeft := none
  , fontName := none, fontSize := none, constraints := none, characters := none }

/-- A childless node with no optional capability. -/
def bareNode : Node := Node.mk baseInfo none none

/-- The text child of the end-to-end card scenario, characters Hello. -/
def titleNode : Node :=
  Node.mk { baseInfo with type := "TEXT", name := "Title", characters := some "Hello" } none none

/-- The selected frame of the end-to-end card scenario: named Card, one
text child Title, no fills or strokes, vertical auto layout, padding
top 4, right 8, bottom 4, left 8. -/
def cardNode : Node :=
  Node.mk
    { baseInfo with
        type := "FRAME", name := "Card", layoutMode := some "VERTICAL",
        paddingTop := some 4, paddingRight := some 8,
        paddingBottom := some 4, paddingLeft := some 8 }
    (some [titleNode]) none

/-- A childless text node used as the overriding child of an instance. -/
def orphanChild : Node :=
  Node.mk { baseInfo with type := "TEXT", name := "Orphan" } none none

/-- An instance node with its own non-empty children whose main
component resolution fails. -/
def detachedInstance : Node :=
  Node.mk { baseInfo with type := "INSTANCE", name := "Widget" } (some [orphanChild]) none

/-- The child owned by the main component of the resolved instances. -/
def mainChild : Node :=
  Node.mk { baseInfo with type := "TEXT", name := "MainChild" } none none

/-- A main component with one child. -/
def mainComp : Node :=
  Node.mk { baseInfo with type := "COMPONENT", name := "Main" } (some [mainChild]) none

/-- The overriding child of the resolved instance. -/
def overriddenChild : Node :=
  Node.mk { baseInfo with type := "TEXT", name := "Override" } none none

/-- An instance with its own non-empty children and a resolved main
component. -/
def resolvedInstance : Node :=
  Node.mk { baseInfo with type := "INSTANCE", name := "Widget" } (some [overriddenChild]) (some mainComp)

/-- An instance with an empty own children sequence and a resolved main
component, the fallback case. -/
def emptyInstance : Node :=
  Node.mk { baseInfo with type := "INSTANCE", name := "Widget" } (some []) (some mainComp)

/-- An instance with no children anywhere whose main component
resolves, the smallest input showing the component reference line. -/
def plainInstance : Node :=
  Node.mk { baseInfo with type := "INSTANCE", name := "Chip" } none
    (some (Node.mk { baseInfo with type := "COMPONENT", name := "ChipMain" } none none))

/-- A node whose description property is present but holds the empty
string. -/
def emptyDescNode : Node := Node.mk { baseInfo with description := some "" } none none

/-- A parent container whose description holds the marker twice. -/
def twoMarkerParent : Node :=
  Node.mk { baseInfo with name := "Page", description := some "A DESCRIPTION: b DESCRIPTION: c" }
    (some []) none

/-- A parent container with the single-marker description of the
end-to-end scenario. -/
def introParent : Node :=
  Node.mk { baseInfo with name := "Page", description := some "Intro text DESCRIPTION: Build a login form" }
    (some []) none

/-- A paint whose serialization throws. -/
def badPaint : Paint := { json := none }

/-- A paint that serializes. -/
def goodPaint : Paint := { json := some "\x7b\"type\":\"SOLID\"\x7d" }

/-- The style record written field by field: what the probe cascade of
extractStyleInfo computes, with each field a function of its own
capability alone. -/
def styleFieldsOf (i : NodeInfo) : StyleInfo :=
  { fills :=
      match i.fills with
      | some ps =>
        (match serializePaints ps with
         | Except.ok ss => jsJoin (", ") ss
         | Except.error _ => "Could not parse fills")
      | none => "No fill styles"
  , strokes :=
      match i.strokes with
      | some ps =>
        (match serializePaints ps with
         | Except.ok ss => jsJoin (", ") ss
         | Except.error _ => "Could not parse strokes")
      | none => "No stroke styles"
  , autoLayout :=
      match i.layoutMode with
      | some m => if m == "NONE" then "No auto layout" else m
      | none => "Not auto layout"
  , paddings :=
      match i.paddingLeft, i.paddingRight, i.paddingTop, i.paddingBottom with
      | some pl, some pr, some pt, some pb =>
        "Top: " ++ toString pt ++ "px, Right: " ++ toString pr ++
        "px, Bottom: " ++ toString pb ++ "px, Left: " ++ toString pl ++ "px"
      | _, _, _, _ => "No padding info"
  , position := "x: " ++ toString i.x ++ ", y: " ++ toString i.y
  , size := "width: " ++ toString i.width ++ ", height: " ++ toString i.height
  , fontFamily :=
      match i.fontName with
      | some fn => stringifyFontName fn
      | none => "No font family"
  , fontSize :=
      match i.fontSize with
      | some k => JsVal.num k
      | none => JsVal.str "No font size" }

/-! ### Helper lemmas -/

theorem renderNodeList_eq_map (l : List Node) (d : Nat) :
    renderNodeList l d = l.map (fun c => getRecursiveStructure c d) := by
  induction l with
  | nil => simp [renderNodeList]
  | cons c rest ih => simp [renderNodeList, ih]

theorem getRecursiveStructure_decomp (n : Node) (d : Nat) :
    getRecursiveStructure n d =
      jsJoin ("\n") (specOwnLines n d ++ componentRefLines n d ++
        (nodeStructChildren n).map (fun c => getRecursiveStructure c (d + 1))) := by
  cases n with
  | mk info cs mc =>
    cases mc with
    | none =>
      cases cs with
      | none =>
        by_cases h : (info.type == "INSTANCE") = true <;>
          simp [getRecursiveStructure, specOwnLines, componentRefLines, nodeStructChildren,
            Node.type, Node.name, Node.info, Node.description, Node.children,
            Node.mainComponent, renderNodeList_eq_map, h]
      | some cl =>
        by_cases h : (info.type == "INSTANCE") = true <;>
          by_cases he : cl.isEmpty = true <;>
            simp [getRecursiveStructure, specOwnLines, componentRefLines, nodeStructChildren,
              Node.type, Node.name, Node.info, Node.description, Node.children,
              Node.mainComponent, renderNodeList_eq_map, h, he]
    | some m =>
      cases m with
      | mk mi mcs mmc =>
        cases cs with
        | none =>
          cases mcs with
          | none =>
            by_cases h : (info.type == "INSTANCE") = true <;>
              simp [getRecursiveStructure, specOwnLines, componentRefLines, nodeStructChildren,
                Node.type, Node.name, Node.info, Node.description, Node.children,
                Node.mainComponent, renderNodeList_eq_map, h]
          | some ml =>
            by_cases h : (info.type == "INSTANCE") = true <;>
              by_cases hml : ml.isEmpty = true <;>
                simp [getRecursiveStructure, specOwnLines, componentRefLines, nodeStructChildren,
                  Node.type, Node.name, Node.info, Node.description, Node.children,
                  Node.mainComponent, renderNodeList_eq_map, h, hml]
        | some cl =>
          cases mcs with
          | none =>
            by_cases h : (info.type == "INSTANCE") = true <;>
              by_cases he : cl.isEmpty = true <;>
                simp [getRecursiveStructure, specOwnLines, componentRefLines, nodeStructChildren,
                  Node.type, Node.name, Node.info, Node.description, Node.children,
                  Node.mainComponent, renderNodeList_eq_map, h, he]
          | some ml =>
            by_cases h : (info.type == "INSTANCE") = true <;>
              by_cases he : cl.isEmpty = true <;>
                by_cases hml : ml.isEmpty = true <;>
                  simp [getRecursiveStructure, specOwnLines, componentRefLines, nodeStructChildren,
                    Node.type, Node.name, Node.info, Node.description, Node.children,
                    Node.mainComponent, renderNodeList_eq_map, h, he, hml]

theorem matchUrlAt_nil : matchUrlAt [] = none := by decide

theorem scanLinksF_nil : ∀ f, scanLinksF f [] = [] := by
  intro f
  cases f with
  | zero => rfl
  | succ g => simp [scanLinksF, matchUrlAt_nil]

theorem scanLinksF_fuel : ∀ f g cs, cs.length ≤ f → cs.length ≤ g →
    scanLinksF f cs = scanLinksF g cs := by
  intro f
  induction f with
  | zero =>
    intro g cs hf _
    have : cs = [] := by
      cases cs with
      | nil => rfl
      | cons c t => simp at hf
    subst this
    rw [scanLinksF_nil, scanLinksF_nil]
  | succ f ih =>
    intro g cs hf hg
    cases g with
    | zero =>
      have : cs = [] := by
        cases cs with
        | nil => rfl
        | cons c t => simp at hg
      subst this
      rw [scanLinksF_nil, scanLinksF_nil]
    | succ g =>
      cases hm : matchUrlAt cs with
      | some mr =>
        have hlt : mr.2.length < cs.length := matchUrlAt_rest_lt cs mr.1 mr.2 hm
        simp only [scanLinksF, hm]
        rw [ih g mr.2 (by omega) (by omega)]
      | none =>
        cases cs with
        | nil => rw [scanLinksF_nil, scanLinksF_nil]
        | cons c t =>
          simp only [scanLinksF, hm]
          simp only [List.length_cons] at hf hg
          exact ih g t (by omega) (by omega)

theorem scanLinks_eq (cs : List Char) :
    scanLinks cs =
      (match matchUrlAt cs with
       | some mr => mr.1 :: scanLinks mr.2
       | none =>
         match cs with
         | [] => []
         | _ :: t => scanLinks t) := by
  unfold scanLinks
  cases hm : matchUrlAt cs with
  | some mr =>
    have hlt : mr.2.length < cs.length := matchUrlAt_rest_lt cs mr.1 mr.2 hm
    cases cs with
    | nil => rw [matchUrlAt_nil] at hm; cases hm
    | cons c t =>
      simp only [List.length_cons, scanLinksF, hm]
      rw [scanLinksF_fuel t.length mr.2.length mr.2 (by simp at hlt; omega) le_rfl]
  | none =>
    cases cs with
    | nil => rfl
    | cons c t => simp only [List.length_cons, scanLinksF, hm]

theorem takeNonSpace_all : ∀ cs, (takeNonSpace cs).1.all (fun c => !isJsSpace c) = true := by
  intro cs
  induction cs with
  | nil => rfl
  | cons c t ih =>
    simp only [takeNonSpace]
    split
    · rfl
    · next hs => simp [List.all_cons, hs, ih]

theorem listStartsWith_append : ∀ p x : List Char, listStartsWith p (p ++ x) = true := by
  intro p x
  induction p with
  | nil => rfl
  | cons a ps ih => simp [listStartsWith, ih]

theorem tryMatch_shape : ∀ pat cs m r, tryMatch pat cs = some (m, r) →
    ∃ t, m = pat ++ t ∧ t ≠ [] ∧ t.all (fun c => !isJsSpace c) = true := by
  intro pat cs m r h
  unfold tryMatch at h
  split at h
  · split at h
    · exact absurd h (by simp)
    · next hne =>
      refine ⟨(takeNonSpace (cs.drop pat.length)).1, ?_, ?_, takeNonSpace_all _⟩
      · injection h with hpair
        exact (congrArg Prod.fst hpair).symm
      · simpa using hne
  · exact absurd h (by simp)

theorem matchUrlAt_token : ∀ cs mr, matchUrlAt cs = some mr → isUrlToken mr.1 = true := by
  intro cs mr h
  unfold matchUrlAt at h
  split at h
  next x heq =>
    cases h
    obtain ⟨t, hm, hne, hall⟩ := tryMatch_shape _ _ _ _ heq
    simp only [isUrlToken, hm, Bool.or_eq_true, Bool.and_eq_true]
    left
    refine ⟨⟨listStartsWith_append _ _, ?_⟩, ?_⟩
    · have : ("https://".data ++ t).drop 8 = t := by
        have h8 : ("https://".data).length = 8 := by decide
        rw [← h8, List.drop_left]
      simp [this, hne]
    · have : ("https://".data ++ t).drop 8 = t := by
        have h8 : ("https://".data).length = 8 := by decide
        rw [← h8, List.drop_left]
      simp [this, hall]
  next heq =>
    obtain ⟨t, hm, hne, hall⟩ := tryMatch_shape _ _ _ _ h
    simp only [isUrlToken, hm, Bool.or_eq_true, Bool.and_eq_true]
    right
    refine ⟨⟨listStartsWith_append _ _, ?_⟩, ?_⟩
    · have : ("http://".data ++ t).drop 7 = t := by
        have h7 : ("http://".data).length = 7 := by decide
        rw [← h7, List.drop_left]
      simp [this, hne]
    · have : ("http://".data ++ t).drop 7 = t := by
        have h7 : ("http://".data).length = 7 := by decide
        rw [← h7, List.drop_left]
      simp [this, hall]

theorem scanLinks_nil_iff : ∀ cs, scanLinks cs = [] ↔ ∀ i, matchUrlAt (cs.drop i) = none := by
  intro cs
  induction cs with
  | nil =>
    constructor
    · intro _ i
      simp [matchUrlAt_nil]
    · intro _
      rfl
  | cons c t ih =>
    rw [scanLinks_eq]
    cases hm : matchUrlAt (c :: t) with
    | some mr =>
      simp only []
      constructor
      · intro hcontra
        exact absurd hcontra (by simp)
      · intro hall
        have h0 := hall 0
        simp [hm] at h0
    | none =>
      simp only []
      constructor
      · intro hall i
        cases i with
        | zero => simpa using hm
        | succ k => simpa using (ih.mp hall) k
      · intro hall
        apply ih.mpr
        intro i
        simpa using hall (i + 1)

theorem scanLinks_all_tokens : ∀ cs, (scanLinks cs).all isUrlToken = true := by
  have key : ∀ N cs, cs.length ≤ N → (scanLinks cs).all isUrlToken = true := by
    intro N
    induction N with
    | zero =>
      intro cs h
      have : cs = [] := by
        cases cs with
        | nil => rfl
        | cons c t => simp at h
      subst this
      rfl
    | succ N ih =>
      intro cs hlen
      rw [scanLinks_eq]
      cases hm : matchUrlAt cs with
      | some mr =>
        have hlt : mr.2.length < cs.length := matchUrlAt_rest_lt cs mr.1 mr.2 hm
        simp only [List.all_cons, Bool.and_eq_true]
        exact ⟨matchUrlAt_token _ _ hm, ih mr.2 (by omega)⟩
      | none =>
        cases cs with
        | nil => rfl
        | cons c t =>
          simp only [List.length_cons] at hlen
          simpa using ih t (by omega)
  intro cs
  exact key cs.length cs le_rfl

theorem jsJoin_cons_ex : ∀ sep x xs, ∃ t, jsJoin sep (x :: xs) = x ++ t := by
  intro sep x xs
  cases xs with
  | nil => exact ⟨"", by simp [jsJoin]⟩
  | cons y rest =>
    refine ⟨sep ++ jsJoin sep (y :: rest), ?_⟩
    simp [jsJoin, String.append_assoc]

theorem isUrlToken_head : ∀ m, isUrlToken m = true → ∃ mt, m = 'h' :: mt := by
  intro m h
  cases m with
  | nil =>
    have : isUrlToken [] = false := by decide
    rw [this] at h
    cases h
  | cons c t =>
    refine ⟨t, ?_⟩
    have hs : ("https://".data) = 'h' :: "ttps://".data := by decide
    have hp : ("http://".data) = 'h' :: "ttp://".data := by decide
    have key : ∀ ps : List Char, listStartsWith ('h' :: ps) (c :: t) = true → c = 'h' := by
      intro ps hsw
      simp only [listStartsWith, Bool.and_eq_true, beq_iff_eq] at hsw
      exact hsw.1.symm
    simp only [isUrlToken, hs, hp, Bool.or_eq_true, Bool.and_eq_true] at h
    rcases h with ⟨⟨hsw, _⟩, _⟩ | ⟨⟨hsw, _⟩, _⟩ <;> rw [key _ hsw]

theorem str_data_append (a b : String) : (a ++ b).data = a.data ++ b.data := by
  cases a
  cases b
  rfl

/-- Claim C4: extractLinks is a total pure function of the input string
that returns the sentinel exactly when no position of the input matches
the URL pattern, and otherwise the scanned matches in order of first
occurrence, joined with a comma and a space; every returned piece
matches the URL pattern in full. -/
theorem extractLinks_correct (s : String) :
    (extractLinks s = "No links found" ↔ ∀ i, matchUrlAt (s.data.drop i) = none) ∧
    (scanLinks s.data).all isUrlToken = true ∧
    extractLinks s =
      (if (scanLinks s.data).isEmpty then "No links found"
       else jsJoin (", ") ((scanLinks s.data).map String.mk)) := by
  refine ⟨⟨?_, ?_⟩, scanLinks_all_tokens _, ?_⟩
  · intro h
    apply (scanLinks_nil_iff s.data).mp
    by_contra hne
    obtain ⟨m, rest, hcons⟩ : ∃ m rest, scanLinks s.data = m :: rest := by
      cases hc : scanLinks s.data with
      | nil => exact absurd hc hne
      | cons a b => exact ⟨a, b, rfl⟩
    have hall := scanLinks_all_tokens s.data
    rw [hcons] at hall
    simp only [List.all_cons, Bool.and_eq_true] at hall
    obtain ⟨mt, hmt⟩ := isUrlToken_head m hall.1
    unfold extractLinks at h
    rw [hcons] at h
    simp only [List.isEmpty_cons, if_false, Bool.false_eq_true, List.map_cons] at h
    obtain ⟨tl, htl⟩ := jsJoin_cons_ex (", ") (String.mk m) (rest.map String.mk)
    rw [htl] at h
    have hdata := congrArg String.data h
    rw [str_data_append] at hdata
    have hmk : (String.mk m).data = m := rfl
    rw [hmk, hmt] at hdata
    have hN : ("No links found").data = 'N' :: ("o links found").data := by decide
    rw [hN] at hdata
    injection hdata with h1 _
    exact absurd h1 (by decide)
  · intro hall
    have hnil : scanLinks s.data = [] := (scanLinks_nil_iff s.data).mpr hall
    unfold extractLinks
    rw [hnil]
    rfl
  · unfold extractLinks
    rfl

theorem extractStyleInfo_eq (n : Node) : extractStyleInfo n = styleFieldsOf n.info := by
  cases n with
  | mk i cs mc =>
    show extractStyleInfo (Node.mk i cs mc) = styleFieldsOf i
    rcases i with ⟨ty, nm, x, y, w, h, de, fi, st, lm, pt, pr, pb, pl, fn, fs, co, ch⟩
    rcases fi with _ | fi <;> rcases st with _ | st <;>
      rcases lm with _ | lm <;> rcases fn with _ | fn <;> rcases fs with _ | fs <;>
      rcases pt with _ | pt <;> rcases pr with _ | pr <;>
      rcases pb with _ | pb <;> rcases pl with _ | pl <;>
      simp [extractStyleInfo, defaultStyleInfo, styleFieldsOf, Node.info]

theorem serializePaints_error_of_any :
    ∀ ps : List Paint, ps.any (fun p => p.json.isNone) = true →
      serializePaints ps = Except.error () := by
  intro ps h
  induction ps with
  | nil => simp at h
  | cons p rest ih =>
    simp only [List.any_cons, Bool.or_eq_true] at h
    cases hj : p.json with
    | none => simp [serializePaints, hj]
    | some s =>
      rcases h with h1 | h2
      · rw [hj] at h1
        simp at h1
      · simp [serializePaints, hj, ih h2]

/-- Claim C9: a node exposing none of the optional visual capabilities
gets exactly the all-default style record, whose capability-gated fields
all hold their documented sentinel strings; the position and size
fields of that record hold the coordinates of the node, as the default
record of the source computes them. -/
theorem styleProbe_all_default (n : Node)
    (hf : n.info.fills = none) (hs : n.info.strokes = none)
    (hl : n.info.layoutMode = none)
    (hpt : n.info.paddingTop = none) (hpr : n.info.paddingRight = none)
    (hpb : n.info.paddingBottom = none) (hpl : n.info.paddingLeft = none)
    (hfn : n.info.fontName = none) (hfs : n.info.fontSize = none) :
    extractStyleInfo n = defaultStyleInfo n ∧
    (extractStyleInfo n).fills = "No fill styles" ∧
    (extractStyleInfo n).strokes = "No stroke styles" ∧
    (extractStyleInfo n).autoLayout = "Not auto layout" ∧
    (extractStyleInfo n).paddings = "No padding info" ∧
    (extractStyleInfo n).fontFamily = "No font family" ∧
    (extractStyleInfo n).fontSize = JsVal.str "No font size" ∧
    (extractStyleInfo n).position = "x: " ++ toString n.info.x ++ ", y: " ++ toString n.info.y ∧
    (extractStyleInfo n).size = "width: " ++ toString n.info.width ++ ", height: " ++ toString n.info.height := by
  have he := extractStyleInfo_eq n
  rw [he]
  refine ⟨?_, ?_⟩
  · simp [styleFieldsOf, defaultStyleInfo, hf, hs, hl, hpt, hpr, hpb, hpl, hfn, hfs]
  · simp [styleFieldsOf, hf, hs, hl, hpt, hpr, hpb, hpl, hfn, hfs]

/-- Claim C9 witness: the bare node gets the all-default record. -/
theorem styleProbe_all_default_witness :
    extractStyleInfo bareNode = defaultStyleInfo bareNode ∧
    (extractStyleInfo bareNode).fills = "No fill styles" ∧
    (extractStyleInfo bareNode).strokes = "No stroke styles" ∧
    (extractStyleInfo bareNode).autoLayout = "Not auto layout" ∧
    (extractStyleInfo bareNode).paddings = "No padding info" ∧
    (extractStyleInfo bareNode).fontFamily = "No font family" ∧
    (extractStyleInfo bareNode).fontSize = JsVal.str "No font size" ∧
    (extractStyleInfo bareNode).position = "x: " ++ toString bareNode.info.x ++ ", y: " ++ toString bareNode.info.y ∧
    (extractStyleInfo bareNode).size = "width: " ++ toString bareNode.info.width ++ ", height: " ++ toString bareNode.info.height :=
  styleProbe_all_default bareNode rfl rfl rfl rfl rfl rfl rfl rfl rfl

/-- Claim C6: a paint serialization failure for fills or for strokes
replaces only that one field of the probe output with its
could-not-parse sentinel, and every other field is a function of its own
capability alone: it coincides with the output for the same node
carrying any other value of the failed capability, in particular one
whose serialization succeeds. -/
theorem styleProbe_isolation (i : NodeInfo) (cs : Option (List Node)) (mc : Option Node)
    (ps : List Paint) (h : ps.any (fun p => p.json.isNone) = true) :
    (extractStyleInfo (Node.mk { i with fills := some ps } cs mc)).fills = "Could not parse fills" ∧
    (extractStyleInfo (Node.mk { i with strokes := some ps } cs mc)).strokes = "Could not parse strokes" ∧
    (∀ f1 f2 : Option (List Paint),
      (extractStyleInfo (Node.mk { i with fills := f1 } cs mc)).strokes =
        (extractStyleInfo (Node.mk { i with fills := f2 } cs mc)).strokes ∧
      (extractStyleInfo (Node.mk { i with fills := f1 } cs mc)).autoLayout =
        (extractStyleInfo (Node.mk { i with fills := f2 } cs mc)).autoLayout ∧
      (extractStyleInfo (Node.mk { i with fills := f1 } cs mc)).paddings =
        (extractStyleInfo (Node.mk { i with fills := f2 } cs mc)).paddings ∧
      (extractStyleInfo (Node.mk { i with fills := f1 } cs mc)).position =
        (extractStyleInfo (Node.mk { i with fills := f2 } cs mc)).position ∧
      (extractStyleInfo (Node.mk { i with fills := f1 } cs mc)).size =
        (extractStyleInfo (Node.mk { i with fills := f2 } cs mc)).size ∧
      (extractStyleInfo (Node.mk { i with fills := f1 } cs mc)).fontFamily =
        (extractStyleInfo (Node.mk { i with fills := f2 } cs mc)).fontFamily ∧
      (extractStyleInfo (Node.mk { i with fills := f1 } cs mc)).fontSize =
        (extractStyleInfo (Node.mk { i with fills := f2 } cs mc)).fontSize) ∧
    (∀ s1 s2 : Option (List Paint),
      (extractStyleInfo (Node.mk { i with strokes := s1 } cs mc)).fills =
        (extractStyleInfo (Node.mk { i with strokes := s2 } cs mc)).fills ∧
      (extractStyleInfo (Node.mk { i with strokes := s1 } cs mc)).autoLayout =
        (extractStyleInfo (Node.mk { i with strokes := s2 } cs mc)).autoLayout ∧
      (extractStyleInfo (Node.mk { i with strokes := s1 } cs mc)).paddings =
        (extractStyleInfo (Node.mk { i with strokes := s2 } cs mc)).paddings ∧
      (extractStyleInfo (Node.mk { i with strokes := s1 } cs mc)).position =
        (extractStyleInfo (Node.mk { i with strokes := s2 } cs mc)).position ∧
      (extractStyleInfo (Node.mk { i with strokes := s1 } cs mc)).size =
        (extractStyleInfo (Node.mk { i with strokes := s2 } cs mc)).size ∧
      (extractStyleInfo (Node.mk { i with strokes := s1 } cs mc)).fontFamily =
        (extractStyleInfo (Node.mk { i with strokes := s2 } cs mc)).fontFamily ∧
      (extractStyleInfo (Node.mk { i with strokes := s1 } cs mc)).fontSize =
        (extractStyleInfo (Node.mk { i with strokes := s2 } cs mc)).fontSize) := by
  refine ⟨?_, ?_, ?_, ?_⟩
  · rw [extractStyleInfo_eq]
    simp [styleFieldsOf, Node.info, serializePaints_error_of_any ps h]
  · rw [extractStyleInfo_eq]
    simp [styleFieldsOf, Node.info, serializePaints_error_of_any ps h]
  · intro f1 f2
    rw [extractStyleInfo_eq, extractStyleInfo_eq]
    refine ⟨?_, ?_, ?_, ?_, ?_, ?_, ?_⟩ <;> simp [styleFieldsOf, Node.info]
  · intro s1 s2
    rw [extractStyleInfo_eq, extractStyleInfo_eq]
    refine ⟨?_, ?_, ?_, ?_, ?_, ?_, ?_⟩ <;> simp [styleFieldsOf, Node.info]

/-- Claim C6 witness: a node whose one fill paint fails to serialize
gets the fills sentinel, and its strokes field equals that of the same
node with a successfully serialized fill paint. -/
theorem styleProbe_isolation_witness :
    (extractStyleInfo (Node.mk { baseInfo with fills := some [badPaint] } none none)).fills =
      "Could not parse fills" ∧
    (extractStyleInfo (Node.mk { baseInfo with fills := some [badPaint] } none none)).strokes =
      (extractStyleInfo (Node.mk { baseInfo with fills := some [goodPaint] } none none)).strokes :=
  ⟨(styleProbe_isolation baseInfo none none [badPaint] (by decide)).1,
   ((styleProbe_isolation baseInfo none none [badPaint] (by decide)).2.2.1
      (some [badPaint]) (some [goodPaint])).1⟩

/-- Claim C2 counterexample: in the card scenario the top-level
Structure Renderer output names the selected Card frame nowhere (only
its children are rendered), and the character content Hello of the text
child appears nowhere, neither in the top-level output nor when the
card itself is rendered at depth 1. -/
theorem structure_scenario_cex :
    containsStr (extractStructureInfo cardNode) ("Card") = false ∧
    containsStr (extractStructureInfo cardNode) ("Hello") = false ∧
    containsStr (getRecursiveStructure cardNode 1) ("Hello") = false ∧
    ¬ ∃ l ∈ linesOf (extractStructureInfo cardNode), containsStr l ("Card") = true := by
  decide

/-- Claim C2 as amended: the Style Probe outputs of the card scenario
are as expected; the top-level structure output renders only the
children, so Title appears at depth 1 and Card not at all, and no line
contains Hello since character content is never rendered; rendering the
card node itself at depth 1 puts the Card line at depth 1 and the Title
line at depth 2, again with no Hello anywhere. -/
theorem structure_scenario_amended :
    (extractStyleInfo cardNode).fills = "No fill styles" ∧
    (extractStyleInfo cardNode).autoLayout = "VERTICAL" ∧
    (extractStyleInfo cardNode).paddings = "Top: 4px, Right: 8px, Bottom: 4px, Left: 8px" ∧
    (∃ l ∈ linesOf (extractStructureInfo cardNode), l = "  - TEXT (Title)") ∧
    containsStr (extractStructureInfo cardNode) ("Card") = false ∧
    containsStr (extractStructureInfo cardNode) ("Hello") = false ∧
    (∃ l ∈ linesOf (getRecursiveStructure cardNode 1), l = "  - FRAME (Card)") ∧
    (∃ l ∈ linesOf (getRecursiveStructure cardNode 1), l = "    - TEXT (Title)") ∧
    containsStr (getRecursiveStructure cardNode 1) ("Hello") = false := by
  decide

/-- Claim C1 counterexample: an instance node with its own non-empty
children whose main component resolution fails renders no children at
all — its own lines only — instead of using its own children as the
claim states for every instance node. -/
theorem children_precedence_cex :
    detachedInstance.type = "INSTANCE" ∧
    detachedInstance.children = some [orphanChild] ∧
    getRecursiveStructure detachedInstance 1 = jsJoin ("\n") (specOwnLines detachedInstance 1) ∧
    getRecursiveStructure detachedInstance 1 ≠
      jsJoin ("\n") (specOwnLines detachedInstance 1 ++ [getRecursiveStructure orphanChild 2]) ∧
    containsStr (getRecursiveStructure detachedInstance 1) ("Orphan") = false :=
  ⟨rfl, rfl, by decide, by decide, by decide⟩

/-- Claim C1 as amended: for an instance node whose main component
resolves, the renderer recurses into the instance own children when
they are present and non-empty, and otherwise into the children of the
resolved main component; when resolution fails the instance renders no
children at all, even present non-empty own ones; every non-instance
node recurses into its own children when the capability is present. -/
theorem children_resolution_rule (info : NodeInfo) (cs : Option (List Node))
    (mc : Option Node) (d : Nat) :
    (info.type = "INSTANCE" →
      (∀ m, mc = some m →
        (∀ cl, cs = some cl → cl ≠ [] →
          getRecursiveStructure (Node.mk info cs mc) d =
            jsJoin ("\n") (specOwnLines (Node.mk info cs mc) d ++
              componentRefLines (Node.mk info cs mc) d ++
              cl.map (fun c => getRecursiveStructure c (d + 1)))) ∧
        ((cs = none ∨ cs = some []) →
          getRecursiveStructure (Node.mk info cs mc) d =
            jsJoin ("\n") (specOwnLines (Node.mk info cs mc) d ++
              componentRefLines (Node.mk info cs mc) d ++
              (m.children.getD []).map (fun c => getRecursiveStructure c (d + 1))))) ∧
      (mc = none →
        getRecursiveStructure (Node.mk info cs mc) d =
          jsJoin ("\n") (specOwnLines (Node.mk info cs mc) d))) ∧
    (info.type ≠ "INSTANCE" →
      getRecursiveStructure (Node.mk info cs mc) d =
        jsJoin ("\n") (specOwnLines (Node.mk info cs mc) d ++
          (cs.getD []).map (fun c => getRecursiveStructure c (d + 1)))) := by
  have hbeq : ∀ h : info.type = "INSTANCE", (info.type == "INSTANCE") = true := by
    intro h
    simp [h]
  refine ⟨fun hinst => ⟨fun m hm => ⟨fun cl hcl hne => ?_, fun hempty => ?_⟩, fun hmc => ?_⟩,
    fun hninst => ?_⟩
  · subst hm
    subst hcl
    have hemp : cl.isEmpty = false := by
      cases cl with
      | nil => exact absurd rfl hne
      | cons a b => rfl
    rw [getRecursiveStructure_decomp]
    simp [nodeStructChildren, Node.type, Node.info, Node.children, Node.mainComponent,
      hbeq hinst, hemp]
  · subst hm
    rw [getRecursiveStructure_decomp]
    obtain ⟨mi, mcs, mmc⟩ := m
    rcases hempty with hcs | hcs <;> subst hcs <;>
      cases mcs with
      | none =>
        simp [nodeStructChildren, Node.type, Node.info, Node.children, Node.mainComponent,
          hbeq hinst]
      | some ml =>
        cases ml with
        | nil =>
          simp [nodeStructChildren, Node.type, Node.info, Node.children, Node.mainComponent,
            hbeq hinst]
        | cons a b =>
          simp [nodeStructChildren, Node.type, Node.info, Node.children, Node.mainComponent,
            hbeq hinst]
  · subst hmc
    rw [getRecursiveStructure_decomp]
    simp [nodeStructChildren, componentRefLines, Node.type, Node.info, Node.children,
      Node.mainComponent, hbeq hinst]
  · have hbne : (info.type == "INSTANCE") = false := by
      simp [hninst]
    rw [getRecursiveStructure_decomp]
    cases cs with
    | none =>
      simp [nodeStructChildren, componentRefLines, Node.type, Node.info, Node.children,
        Node.mainComponent, hbne]
    | some cl =>
      cases cl with
      | nil =>
        simp [nodeStructChildren, componentRefLines, Node.type, Node.info, Node.children,
          Node.mainComponent, hbne]
      | cons a b =>
        simp [nodeStructChildren, componentRefLines, Node.type, Node.info, Node.children,
          Node.mainComponent, hbne]

/-- Claim C1 witness: the resolved instance with an overriding child
renders that child and not the main component child; the resolved
instance with an empty own children sequence falls back to the main
component child. -/
theorem children_resolution_rule_witness :
    getRecursiveStructure resolvedInstance 1 =
      jsJoin ("\n") (specOwnLines resolvedInstance 1 ++ componentRefLines resolvedInstance 1 ++
        [getRecursiveStructure overriddenChild 2]) ∧
    getRecursiveStructure emptyInstance 1 =
      jsJoin ("\n") (specOwnLines emptyInstance 1 ++ componentRefLines emptyInstance 1 ++
        [getRecursiveStructure mainChild 2]) ∧
    containsStr (getRecursiveStructure resolvedInstance 1) ("MainChild") = false ∧
    containsStr (getRecursiveStructure emptyInstance 1) ("MainChild") = true := by
  refine ⟨?_, ?_, by decide, by decide⟩
  · exact (((children_resolution_rule { baseInfo with type := "INSTANCE", name := "Widget" }
      (some [overriddenChild]) (some mainComp) 1).1 rfl).1 mainComp rfl).1
      [overriddenChild] rfl (by simp)
  · exact (((children_resolution_rule { baseInfo with type := "INSTANCE", name := "Widget" }
      (some []) (some mainComp) 1).1 rfl).1 mainComp rfl).2 (Or.inr rfl)

/-- Claim C3 counterexample: an instance node with a resolved main
component emits one line beyond the enumerated six — a component
reference line after the constraints position — so the enumerated lines
alone are not its rendering. -/
theorem render_line_order_cex :
    plainInstance.type = "INSTANCE" ∧
    getRecursiveStructure plainInstance 1 ≠ jsJoin ("\n") (specOwnLines plainInstance 1) ∧
    getRecursiveStructure plainInstance 1 =
      jsJoin ("\n") (specOwnLines plainInstance 1 ++ ["  - Component Reference: ChipMain"]) :=
  ⟨rfl, by decide, by decide⟩

/-- Claim C3 as amended: every node emits, in order, the line naming
type and name, the position line, the description line when the
description is present and non-empty, the generic type tag line, the
inline serialized style record line, the constraints line when the
capability is present, and — beyond the enumeration of the claim — a
component reference line when the node is an instance whose main
component resolves; every one of those lines carries the two-space
indentation repeated depth times as a literal prefix, and the selected
children follow, each rendered at depth plus one. -/
theorem render_line_order (n : Node) (d : Nat) :
    getRecursiveStructure n d =
      jsJoin ("\n")
        ([ jsRepeat ("  ") d ++ "- " ++ n.type ++
             (if n.name == "" then "" else " (" ++ n.name ++ ")")
         , jsRepeat ("  ") d ++ "- Position: " ++ toString n.info.x ++ ", " ++ toString n.info.y ] ++
         (match n.description with
          | some de => if de == "" then [] else [jsRepeat ("  ") d ++ "- Description: " ++ de]
          | none => []) ++
         [ jsRepeat ("  ") d ++ "- Node Type Specific Info: " ++ n.type
         , jsRepeat ("  ") d ++ "- Node Styles: " ++ stringifyStyleInfo (extractStyleInfo n) ] ++
         (match n.info.constraints with
          | some c => [jsRepeat ("  ") d ++ "- Constraints: " ++ stringifyConstraints c]
          | none => []) ++
         (if n.type == "INSTANCE" then
            match n.mainComponent with
            | some m => [jsRepeat ("  ") d ++ "- Component Reference: " ++ m.name]
            | none => []
          else []) ++
         (nodeStructChildren n).map (fun c => getRecursiveStructure c (d + 1))) := by
  rw [getRecursiveStructure_decomp n d]
  simp [specOwnLines, componentRefLines, List.append_assoc]

/-- Claim C5 counterexample: a node whose description property is
present but holds the empty string (falsy in the source) gets the
sentinel, not its present description. -/
theorem extractDescription_cex :
    emptyDescNode.description = some "" ∧
    extractDescription emptyDescNode = "No description provided in the selected component." ∧
    extractDescription emptyDescNode ≠ "" :=
  ⟨rfl, by decide, by decide⟩

/-- Claim C5 as amended: extractDescription is total and never throws;
an instance node returns the description of its resolved main component
when resolution succeeds and that description is present and non-empty,
and the No-description-provided sentinel when resolution fails or the
description is absent or empty; every other node returns its own
description when present and non-empty and the fixed
selected-component sentinel otherwise. -/
theorem extractDescription_spec (n : Node) :
    (n.type = "INSTANCE" →
      (∀ m d, n.mainComponent = some m → m.description = some d → d ≠ "" →
        extractDescription n = d) ∧
      (n.mainComponent = none → extractDescription n = "No description provided") ∧
      (∀ m, n.mainComponent = some m → (m.description = none ∨ m.description = some "") →
        extractDescription n = "No description provided")) ∧
    (n.type ≠ "INSTANCE" →
      (∀ d, n.description = some d → d ≠ "" → extractDescription n = d) ∧
      ((n.description = none ∨ n.description = some "") →
        extractDescription n = "No description provided in the selected component.")) := by
  constructor
  · intro hinst
    have hb : (n.type == "INSTANCE") = true := by simp [hinst]
    refine ⟨?_, ?_, ?_⟩
    · intro m d hm hd hne
      have hdb : (d == "") = false := by simp [hne]
      simp [extractDescription, hb, hm, hd, hdb]
    · intro hm
      simp [extractDescription, hb, hm]
    · intro m hm hde
      rcases hde with hde | hde <;> simp [extractDescription, hb, hm, hde]
  · intro hninst
    have hb : (n.type == "INSTANCE") = false := by simp [hninst]
    refine ⟨?_, ?_⟩
    · intro d hd hne
      have hdb : (d == "") = false := by simp [hne]
      simp [extractDescription, hb, hd, hdb]
    · intro hde
      rcases hde with hde | hde <;> simp [extractDescription, hb, hde]

/-- Claim C5 witness: the three paths at concrete nodes — a present
non-empty description is returned, an absent one gets the
selected-component sentinel, and a failed instance resolution gets the
No-description-provided sentinel. -/
theorem extractDescription_spec_witness :
    extractDescription (Node.mk { baseInfo with description := some "desc text" } none none) =
      "desc text" ∧
    extractDescription bareNode = "No description provided in the selected component." ∧
    extractDescription (Node.mk { baseInfo with type := "INSTANCE" } none none) =
      "No description provided" := by
  refine ⟨?_, ?_, ?_⟩
  · exact ((extractDescription_spec
      (Node.mk { baseInfo with description := some "desc text" } none none)).2
      (by decide)).1 "desc text" rfl (by decide)
  · exact ((extractDescription_spec bareNode).2 (by decide)).2 (Or.inl rfl)
  · exact ((extractDescription_spec
      (Node.mk { baseInfo with type := "INSTANCE" } none none)).1 rfl).2.1 rfl

/-- Claim C10: the top-level extractStructureInfo returns the sentinel
exactly when the children capability is absent or empty, and otherwise
only the renderings of the children, each starting at depth 1, joined
with newlines — no line of the selected node itself is ever emitted. -/
theorem extractStructureInfo_spec (n : Node) :
    (n.children = none → extractStructureInfo n = "No child structure found.") ∧
    (∀ cl, n.children = some cl → cl = [] →
      extractStructureInfo n = "No child structure found.") ∧
    (∀ cl, n.children = some cl → cl ≠ [] →
      extractStructureInfo n = jsJoin ("\n") (cl.map (fun c => getRecursiveStructure c 1))) := by
  refine ⟨?_, ?_, ?_⟩
  · intro h
    simp [extractStructureInfo, h]
  · intro cl h he
    subst he
    simp [extractStructureInfo, h]
  · intro cl h hne
    have hemp : cl.isEmpty = false := by
      cases cl with
      | nil => exact absurd rfl hne
      | cons a b => rfl
    simp [extractStructureInfo, h, hemp]

/-- Claim C10 witness: the childless node gets the sentinel and the
card frame gets exactly the rendering of its one child at depth 1. -/
theorem extractStructureInfo_spec_witness :
    extractStructureInfo bareNode = "No child structure found." ∧
    extractStructureInfo cardNode =
      jsJoin ("\n") ([titleNode].map (fun c => getRecursiveStructure c 1)) :=
  ⟨(extractStructureInfo_spec bareNode).1 rfl,
   (extractStructureInfo_spec cardNode).2.2 [titleNode] rfl (by simp)⟩

theorem listStartsWith_marker_nil : listStartsWith marker [] = false := by decide

theorem splitMarkerF_nil : ∀ f, splitMarkerF f [] = [[]] := by
  intro f
  cases f with
  | zero => rfl
  | succ g => simp [splitMarkerF, listStartsWith_marker_nil]

theorem splitMarkerF_fuel : ∀ f g s, s.length ≤ f → s.length ≤ g →
    splitMarkerF f s = splitMarkerF g s := by
  intro f
  induction f with
  | zero =>
    intro g s hf _
    have : s = [] := by
      cases s with
      | nil => rfl
      | cons c t => simp at hf
    subst this
    rw [splitMarkerF_nil, splitMarkerF_nil]
  | succ f ih =>
    intro g s hf hg
    cases g with
    | zero =>
      have : s = [] := by
        cases s with
        | nil => rfl
        | cons c t => simp at hg
      subst this
      rw [splitMarkerF_nil, splitMarkerF_nil]
    | succ g =>
      by_cases hsw : listStartsWith marker s = true
      · have hlen : marker.length ≤ s.length := listStartsWith_length marker s hsw
        have hm12 : marker.length = 12 := by decide
        simp only [splitMarkerF, hsw, if_true]
        rw [ih g (s.drop marker.length) (by simp; omega) (by simp; omega)]
      · cases s with
        | nil => rw [splitMarkerF_nil, splitMarkerF_nil]
        | cons c t =>
          simp only [splitMarkerF, hsw, if_false, Bool.false_eq_true]
          simp only [List.length_cons] at hf hg
          rw [ih g t (by omega) (by omega)]

theorem splitMarker_step (s : List Char) :
    splitMarker s =
      (if listStartsWith marker s then [] :: splitMarker (s.drop marker.length)
       else
         match s with
         | [] => [[]]
         | c :: t =>
           match splitMarker t with
           | [] => [[]]
           | l :: ls => (c :: l) :: ls) := by
  unfold splitMarker
  by_cases hsw : listStartsWith marker s = true
  · have hlen : marker.length ≤ s.length := listStartsWith_length marker s hsw
    have hm12 : marker.length = 12 := by decide
    cases s with
    | nil => rw [listStartsWith_marker_nil] at hsw; cases hsw
    | cons c t =>
      simp only [List.length_cons, splitMarkerF, hsw, if_true]
      rw [splitMarkerF_fuel t.length ((c :: t).drop marker.length).length ((c :: t).drop marker.length)
        (by simp; omega) le_rfl]
  · cases s with
    | nil => rfl
    | cons c t => simp only [List.length_cons, splitMarkerF, hsw, if_false, Bool.false_eq_true]

theorem splitMarker_head : ∀ s : List Char,
    ∃ ls, splitMarker s = upToMarker s :: ls ∧
      (afterFirstMarker s = none → ls = []) ∧
      (∀ a, afterFirstMarker s = some a → ls = splitMarker a) := by
  have key : ∀ N s, s.length ≤ N →
      ∃ ls, splitMarker s = upToMarker s :: ls ∧
        (afterFirstMarker s = none → ls = []) ∧
        (∀ a, afterFirstMarker s = some a → ls = splitMarker a) := by
    intro N
    induction N with
    | zero =>
      intro s hs
      have : s = [] := by
        cases s with
        | nil => rfl
        | cons c t => simp at hs
      subst this
      refine ⟨[], ?_, fun _ => rfl, ?_⟩
      · rw [splitMarker_step]
        simp [listStartsWith_marker_nil, upToMarker]
      · intro a ha
        simp [afterFirstMarker] at ha
    | succ N ih =>
      intro s hs
      rw [splitMarker_step]
      by_cases hsw : listStartsWith marker s = true
      · cases s with
        | nil => rw [listStartsWith_marker_nil] at hsw; cases hsw
        | cons c t =>
          refine ⟨splitMarker ((c :: t).drop marker.length), ?_, ?_, ?_⟩
          · simp [hsw, upToMarker]
          · intro hnone
            simp [afterFirstMarker, hsw] at hnone
          · intro a ha
            simp [afterFirstMarker, hsw] at ha
            rw [ha]
      · cases s with
        | nil =>
          refine ⟨[], by simp [upToMarker, listStartsWith_marker_nil], fun _ => rfl, ?_⟩
          intro a ha
          simp [afterFirstMarker] at ha
        | cons c t =>
          simp only [List.length_cons] at hs
          obtain ⟨ls, hsp, hnone, hsome⟩ := ih t (by omega)
          refine ⟨ls, ?_, ?_, ?_⟩
          · simp [hsw, hsp, upToMarker]
          · intro hna
            apply hnone
            simpa [afterFirstMarker, hsw] using hna
          · intro a ha
            apply hsome
            simpa [afterFirstMarker, hsw] using ha
  intro s
  exact key s.length s le_rfl

theorem splitMarker_second : ∀ s a : List Char, afterFirstMarker s = some a →
    ∃ rest, splitMarker s = upToMarker s :: upToMarker a :: rest := by
  intro s a ha
  obtain ⟨ls, hsp, _, hsome⟩ := splitMarker_head s
  obtain ⟨ls2, hsp2, _, _⟩ := splitMarker_head a
  refine ⟨ls2, ?_⟩
  rw [hsp, hsome a ha, hsp2]

theorem containsList_marker_iff : ∀ s : List Char,
    containsList marker s = true ↔ (afterFirstMarker s).isSome = true := by
  intro s
  induction s with
  | nil =>
    simp [containsList, listStartsWith_marker_nil, afterFirstMarker]
  | cons c t ih =>
    simp only [containsList, afterFirstMarker, Bool.or_eq_true]
    by_cases hsw : listStartsWith marker (c :: t) = true
    · simp [hsw]
    · simp [hsw, ih]

mutual

theorem findMarkerText_sat : ∀ n tn, findMarkerText n = some tn → isMarkerText tn = true
  | Node.mk _ none _, tn, h => by
    simp [findMarkerText] at h
  | Node.mk _ (some cs) _, tn, h => by
    have := findMarkerTextList_sat cs tn
    apply this
    simpa [findMarkerText] using h

theorem findMarkerTextList_sat : ∀ l tn, findMarkerTextList l = some tn → isMarkerText tn = true
  | [], tn, h => by
    simp [findMarkerTextList] at h
  | c :: rest, tn, h => by
    by_cases hc : isMarkerText c = true
    · have : some c = some tn := by simpa [findMarkerTextList, hc] using h
      injection this with hh
      rw [← hh]
      exact hc
    · rw [findMarkerTextList] at h
      simp only [hc, if_false, Bool.false_eq_true] at h
      cases hf : findMarkerText c with
      | some r =>
        rw [hf] at h
        injection h with hh
        rw [← hh]
        exact findMarkerText_sat c r hf
      | none =>
        rw [hf] at h
        exact findMarkerTextList_sat rest tn h

end

theorem getProjectDescription_container (selected : Node) (parent : Option Node) :
    getProjectDescription selected parent = getProjectDescription (parent.getD selected) none := by
  cases parent <;> rfl

/-- Claim C7 as amended: when the container description contains the
marker, the returned text is the trimmed fragment after the first
marker up to the next occurrence of the marker (not the whole suffix);
when it does not, the same split-and-trim applies to the characters of
the first marker-bearing descendant text node; and the fixed default is
returned when no such node exists. -/
theorem getProjectDescription_spec (selected : Node) (parent : Option Node) :
    (∀ d, (parent.getD selected).description = some d →
      containsStr d ("DESCRIPTION:") = true →
      ∃ seg, segmentAfterMarker d = some seg ∧
        getProjectDescription selected parent = trimJs seg) ∧
    ((∀ d, (parent.getD selected).description = some d →
        containsStr d ("DESCRIPTION:") = false) →
      (∀ tn ch, findMarkerText (parent.getD selected) = some tn → tn.characters = some ch →
        ∃ seg, segmentAfterMarker ch = some seg ∧
          getProjectDescription selected parent = trimJs seg) ∧
      (findMarkerText (parent.getD selected) = none →
        getProjectDescription selected parent = DEFAULT_DESCRIPTION)) := by
  rw [getProjectDescription_container selected parent]
  generalize parent.getD selected = container
  constructor
  · intro d hd hcontains
    have hcl : containsList marker d.data = true := hcontains
    have hsome : (afterFirstMarker d.data).isSome = true :=
      (containsList_marker_iff d.data).mp hcl
    obtain ⟨a, ha⟩ : ∃ a, afterFirstMarker d.data = some a := by
      cases hx : afterFirstMarker d.data with
      | none => rw [hx] at hsome; cases hsome
      | some a => exact ⟨a, rfl⟩
    obtain ⟨rest, hsp⟩ := splitMarker_second d.data a ha
    refine ⟨String.mk (upToMarker a), ?_, ?_⟩
    · simp [segmentAfterMarker, ha]
    · simp [getProjectDescription, hd, hcl, hsp]
  · intro hnomark
    have hphase1 :
        (match container.description with
         | some d =>
           if containsList marker d.data then
             match splitMarker d.data with
             | _ :: p1 :: _ => some (trimJs (String.mk p1))
             | _ => none
           else none
         | none => none) = (none : Option String) := by
      cases hdesc : container.description with
      | none => rfl
      | some d =>
        have := hnomark d hdesc
        have hcl : containsList marker d.data = false := this
        simp [hcl]
    constructor
    · intro tn ch hf hch
      have hsat := findMarkerText_sat container tn hf
      have hcl : containsList marker ch.data = true := by
        simp only [isMarkerText, Bool.and_eq_true] at hsat
        have := hsat.2
        rw [hch] at this
        exact this
      have hsome : (afterFirstMarker ch.data).isSome = true :=
        (containsList_marker_iff ch.data).mp hcl
      obtain ⟨a, ha⟩ : ∃ a, afterFirstMarker ch.data = some a := by
        cases hx : afterFirstMarker ch.data with
        | none => rw [hx] at hsome; cases hsome
        | some a => exact ⟨a, rfl⟩
      obtain ⟨rest, hsp⟩ := splitMarker_second ch.data a ha
      refine ⟨String.mk (upToMarker a), ?_, ?_⟩
      · simp [segmentAfterMarker, ha]
      · simp [getProjectDescription, hphase1, hf, hch, hsp]
    · intro hf
      simp [getProjectDescription, hphase1, hf]

/-- Claim C7 counterexample: with a parent description holding the
marker twice, the source split returns the fragment between the two
markers, not the trimmed text after the first marker as the claim
states. -/
theorem getProjectDescription_cex :
    twoMarkerParent.description = some "A DESCRIPTION: b DESCRIPTION: c" ∧
    getProjectDescription bareNode (some twoMarkerParent) = "b" ∧
    textAfterMarker ("A DESCRIPTION: b DESCRIPTION: c") = some (" b DESCRIPTION: c") ∧
    trimJs (" b DESCRIPTION: c") = "b DESCRIPTION: c" ∧
    getProjectDescription bareNode (some twoMarkerParent) ≠ trimJs (" b DESCRIPTION: c") :=
  ⟨rfl, by decide, by decide, by decide, by decide⟩

/-- Claim C7 witness: the end-to-end scenario — parent description with
one marker returns exactly the trimmed text after it. -/
theorem getProjectDescription_spec_witness :
    getProjectDescription bareNode (some introParent) = "Build a login form" := by
  obtain ⟨seg, hseg, hval⟩ := (getProjectDescription_spec bareNode (some introParent)).1
    ("Intro text DESCRIPTION: Build a login form") rfl (by decide)
  rw [hval]
  have : seg = " Build a login form" := by
    have hcomp : segmentAfterMarker ("Intro text DESCRIPTION: Build a login form") =
        some (" Build a login form") := by decide
    rw [hcomp] at hseg
    injection hseg with hh
    exact hh.symm
  rw [this]
  decide

/-- Claim C8: with an empty selection the run performs exactly a single
user notification asking for a selection followed by closing the
plugin, and assembles no prompt — the effect list is exactly those two
entries whatever the rest of the document looks like, so no extraction
output enters the run. -/
theorem mainRun_empty_selection (selParent : Option Node) :
    mainRun [] selParent =
      ([Effect.notify "Please select a component before running the plugin.",
        Effect.closePlugin], none) ∧
    ((mainRun [] selParent).1.filter Effect.isNotify).length = 1 ∧
    (mainRun [] selParent).2 = none :=
  ⟨rfl, rfl, rfl⟩
